import Mathlib

/-!
# Verification of the luckypot runtime core

Shallow embedding of the cooperative script scheduler
(`src/luckypot/object.py`, class `Scriptable`), the scene/state stack machine
(`src/luckypot/state_machine.py`, classes `State` and `StateMachine`), and the
particle engine (`src/luckypot/particles.py`, classes `Particle`,
`ParticleSystem`, `ParticleFountain`; `src/luckypot/utils.py`, `rrange`).

Conventions:
* Python generator objects, game objects and scenes are identified by `Nat`
  ids; Python `set`s of such objects are represented by duplicate-free lists
  (insertion dedups on membership, as `set.add` does).
* Python floats are modelled by `ℚ`; `math.cos`/`math.sin` are opaque
  environment functions passed as parameters (no claim depends on their
  values).
* Python `assert` failures and other raises are modelled by `Except Unit`.
-/

namespace Luckypot

/-! ## Scene / state stack machine (`state_machine.py`)

The stack is a `List Nat` of scene ids, the *last* element being the top,
exactly like the Python list used by `StateMachine.stack` (`append`/`pop`
at the end).  The lifecycle hooks invoked by the `state` setter are recorded
as an event trace: the code only ever calls `on_exit` and `on_resume`. -/

inductive SEvent where
  | exitEv (s : Nat)
  | resumeEv (s : Nat)
deriving DecidableEq, Repr

inductive SOp where
  | nop
  | pop
  | push
  | replace
deriving DecidableEq, Repr

/-- The body of the `StateMachine.state` setter (state_machine.py:290-321).
`new` is the second component of the assigned tuple (`None` ↦ `none`).
Python `assert` statements are modelled as `Except.error ()`. -/
def applyStateOp (op : SOp) (new : Option Nat) (stack : List Nat) :
    Except Unit (List Nat × List SEvent) :=
  match op with
  | .nop => .ok (stack, [])
  | .pop =>
    match new with
    | some _ => .error ()            -- assert new is None
    | none =>
      -- if self.stack: prev = self.stack.pop(); prev.on_exit()
      let (stack1, evs1) :=
        match stack.getLast? with
        | some prev => (stack.dropLast, [SEvent.exitEv prev])
        | none => (stack, [])
      -- if self.stack: self.stack[-1].on_resume()
      let evs2 :=
        match stack1.getLast? with
        | some top => [SEvent.resumeEv top]
        | none => []
      .ok (stack1, evs1 ++ evs2)
  | .replace =>
    match new with
    | none => .error ()              -- assert new is not None
    | some n =>
      let (stack1, evs1) :=
        match stack.getLast? with
        | some prev => (stack.dropLast, [SEvent.exitEv prev])
        | none => (stack, [])
      .ok (stack1 ++ [n], evs1 ++ [SEvent.resumeEv n])
  | .push =>
    match new with
    | none => .error ()              -- assert new is not None
    | some n =>
      let evs1 :=
        match stack.getLast? with
        | some top => [SEvent.exitEv top]
        | none => []
      .ok (stack ++ [n], evs1 ++ [SEvent.resumeEv n])

/-! ## `rrange` (utils.py:103-109) and `ParticleFountain.logic` (particles.py:123-125)

`rrange(nb)` returns `range(int(nb) + 1)` when `random.random() < nb - int(nb)`
and `range(int(nb))` otherwise.  The RNG draw `r` (a value of `random.random()`,
hence `0 ≤ r < 1`) is an explicit parameter.  Python `int()` truncates
toward zero. -/

/-- Python `int()` on a real number: truncation toward zero. -/
def pyTrunc (q : ℚ) : ℤ := if 0 ≤ q then ⌊q⌋ else -⌊-q⌋

/-- Length of the range returned by `rrange(nb)` when the RNG drew `r`. -/
def rrangeLen (nb : ℚ) (r : ℚ) : ℕ :=
  let qte := pyTrunc nb
  let proba := nb - (qte : ℚ)
  if r < proba then (qte + 1).toNat else qte.toNat

/-- `ParticleFountain.logic`: emit one generated particle per element of
`rrange(self.frequency)` and add each to the system.  `gen k` is the particle
produced by the `k`-th call of the factory; `sys` is the particle system as a
list. -/
def fountainLogic (frequency : ℚ) (r : ℚ) (gen : Nat → α) (sys : List α) :
    List α :=
  sys ++ (List.range (rrangeLen frequency r)).map gen

/-! ## Particles (`particles.py`, class `Particle`)

`PData` holds the mutable numeric fields of `Particle.__init__`
(particles.py:164-180); animation closures receive the particle and may
mutate any of these fields, so an animation is a `PData → PData` function
and a `Particle` is its data plus its ordered closure list.  Field names
follow the source.  `cos`/`sin` (of the angle in degrees) are opaque
parameters `cosd`/`sind`. -/

structure PData where
  pos : ℚ × ℚ
  speed : ℚ
  angle : ℚ
  acc : ℚ
  angle_vel : ℚ
  size : ℚ
  lifespan : ℚ
  constant_force : ℚ × ℚ
  inner_rotation : ℚ
  inner_rotation_speed : ℚ
  alpha : ℚ
  life_prop : ℚ
  alive : Bool

structure Particle where
  d : PData
  animations : List (PData → PData)

/-- `Particle.__init__` defaults (particles.py:164-180). -/
def Particle.init : Particle where
  d := { pos := (0, 0), speed := 3, angle := -90, acc := 0, angle_vel := 0,
         size := 10, lifespan := 60, constant_force := (0, 0),
         inner_rotation := 0, inner_rotation_speed := 0, alpha := 255,
         life_prop := 0, alive := true }
  animations := []

/-- Builder `velocity(speed, radial_velocity)` (particles.py:204-213). -/
def Particle.velocity (p : Particle) (speed radial_velocity : ℚ) : Particle :=
  { p with d := { p.d with speed := speed, angle_vel := radial_velocity } }

/-- Builder `sized(size)` (particles.py:232-235). -/
def Particle.sized (p : Particle) (size : ℚ) : Particle :=
  { p with d := { p.d with size := size } }

/-- Builder `living(lifespan)` (particles.py:237-240). -/
def Particle.living (p : Particle) (lifespan : ℚ) : Particle :=
  { p with d := { p.d with lifespan := lifespan } }

/-- Builder `anim(animation)` (particles.py:247-249): appends a closure. -/
def Particle.anim (p : Particle) (a : PData → PData) : Particle :=
  { p with animations := p.animations ++ [a] }

/-- `Particle.logic` (particles.py:358-376), one sequential statement per
`let`.  The position increment uses the already-updated `angle` and `speed`
(the Python statements mutate the attributes in place), and the two `pos`
increments (polar velocity, then constant force) are composed into the one
`pos` value below. -/
def Particle.logic (cosd sind : ℚ → ℚ) (p : Particle) : Particle :=
  let life_prop := p.d.life_prop + 1 / p.d.lifespan
  let speed := p.d.speed + p.d.acc
  let angle := p.d.angle + p.d.angle_vel
  let pos := (p.d.pos.1 + cosd angle * speed + p.d.constant_force.1,
              p.d.pos.2 + sind angle * speed + p.d.constant_force.2)
  let inner_rotation := p.d.inner_rotation + p.d.inner_rotation_speed
  let d6 : PData :=
    { p.d with
      life_prop := life_prop
      speed := speed
      angle := angle
      pos := pos
      inner_rotation := inner_rotation }
  if d6.speed < 0 ∨ d6.size ≤ 0 ∨ d6.life_prop ≥ 1 then
    { p with d := { d6 with alive := false } }
  else
    { p with d := p.animations.foldl (fun x a => a x) d6 }

/-- `ParticleSystem.logic` (particles.py:62-74): the fountains add their
fresh particles to the set first, then every particle (fresh ones included)
is updated, then the particles that are no longer alive are removed.
`fresh` is the concatenation of this frame's fountain emissions. -/
def systemLogic (cosd sind : ℚ → ℚ) (fresh : List Particle)
    (sys : List Particle) : List Particle :=
  let sys1 := sys ++ fresh
  let sys2 := sys1.map (Particle.logic cosd sind)
  sys2.filter (fun p => p.d.alive)

/-! Spec-side definitions for the C3 refinement, written from the claim's
wording: integrate the five kinematic quantities, then gate the animation
closures on the viability check `speed ≥ 0 ∧ size > 0 ∧ life_prop < 1`. -/

/-- The claim's integration step: lifetime by `1/lifespan`, speed by
acceleration, heading by angular velocity, position by the polar velocity
(updated speed along updated heading) plus the constant external force,
inner rotation by its speed. -/
def specIntegrated (cosd sind : ℚ → ℚ) (d : PData) : PData :=
  { d with
    life_prop := d.life_prop + 1 / d.lifespan,
    speed := d.speed + d.acc,
    angle := d.angle + d.angle_vel,
    pos := (d.pos.1 + cosd (d.angle + d.angle_vel) * (d.speed + d.acc)
              + d.constant_force.1,
            d.pos.2 + sind (d.angle + d.angle_vel) * (d.speed + d.acc)
              + d.constant_force.2),
    inner_rotation := d.inner_rotation + d.inner_rotation_speed }

/-- The claim's viability check. -/
def specViable (d : PData) : Bool :=
  decide (0 ≤ d.speed) && decide (0 < d.size) && decide (d.life_prop < 1)

/-- The claim's per-frame update: integrate, then either run all animation
closures in registration order (viable) or mark dead with no closure run. -/
def specUpdate (cosd sind : ℚ → ℚ) (p : Particle) : Particle :=
  if specViable (specIntegrated cosd sind p.d) then
    { p with d := p.animations.foldl (fun x a => a x)
                    (specIntegrated cosd sind p.d) }
  else
    { p with d := { specIntegrated cosd sind p.d with alive := false } }

/-- The particle `SquareParticle().builder().velocity(0).sized(10).living(60)
.build()`: speed exactly zero. -/
def zeroSpeedParticle : Particle :=
  ((Particle.init.velocity 0 0).sized 10).living 60

/-! ## Scene drawing (`State.draw`, state_machine.py:155-176 and the
identical state.py:130-153)

Drawing is modelled as the trace of draw calls.  A scene object is a pair
`(id, Z)`; the background fill and the screen shake do not touch the
entity/particle ordering and are omitted from the trace. -/

inductive DrawEv where
  | obj (oid : Nat)
  | particlesEv
deriving DecidableEq, Repr

/-- Insertion into a sorted duplicate-free list of `Int`: used to model
Python's `sorted(set(o.Z for o in self.objects))`. -/
def insertZ (z : Int) : List Int → List Int
  | [] => [z]
  | y :: ys =>
    if z < y then z :: y :: ys
    else if z = y then y :: ys
    else y :: insertZ z ys

/-- `sorted(set(o.Z for o in self.objects))`. -/
def sortedZs (objs : List (Nat × Int)) : List Int :=
  (objs.map (fun o => o.2)).foldl (fun acc z => insertZ z acc) []

/-- The draw calls issued for one `z` layer: every object with that depth
key, in collection order. -/
def layerEvents (objs : List (Nat × Int)) (z : Int) : List DrawEv :=
  (objs.filter (fun o => o.2 == z)).map (fun o => DrawEv.obj o.1)

/-- The `for z in sorted(set(...))` loop of `State.draw`: draw the layer,
then draw the particles once the first `z ≥ 0` layer has been drawn.
Returns the trace and the final `did_draw_particles` flag. -/
def drawLoop (objs : List (Nat × Int)) :
    List Int → Bool → List DrawEv × Bool
  | [], did => ([], did)
  | z :: zs, did =>
    if 0 ≤ z ∧ did = false then
      let rest := drawLoop objs zs true
      (layerEvents objs z ++ DrawEv.particlesEv :: rest.1, rest.2)
    else
      let rest := drawLoop objs zs did
      (layerEvents objs z ++ rest.1, rest.2)

/-- `State.draw`: run the layer loop, then draw the particles at the end if
no layer triggered them. -/
def stateDraw (objs : List (Nat × Int)) : List DrawEv :=
  let r := drawLoop objs (sortedZs objs) false
  if r.2 then r.1 else r.1 ++ [DrawEv.particlesEv]

/-- Draw trace of a list of layers in order. -/
def groupEvents (objs : List (Nat × Int)) (zs : List Int) : List DrawEv :=
  (zs.map (layerEvents objs)).flatten

/-- The amended drawing contract, written from its wording: layers in
ascending depth order; the particle layer immediately *after* the first
(lowest) layer with non-negative depth key, or at the very end when every
layer is negative. -/
def specDraw (objs : List (Nat × Int)) : List DrawEv :=
  match (sortedZs objs).filter (fun z => decide (0 ≤ z)) with
  | [] => groupEvents objs (sortedZs objs) ++ [DrawEv.particlesEv]
  | z0 :: rest =>
    groupEvents objs ((sortedZs objs).filter (fun z => decide (z < 0))) ++
      layerEvents objs z0 ++ DrawEv.particlesEv :: groupEvents objs rest

/-! ## Cooperative script scheduler (`object.py`, class `Scriptable`)

Generator objects are identified by `Nat` ids.  A static environment
`env : Nat → List (List Nat)` gives each generator its body: `env g` is the
list of frames the generator runs before raising `StopIteration`, and each
frame is the list of generator ids the body passes to `self.add_script`
during that resumption.  The mutable state tracks, per id, how far the
generator has run (`pos`) and how many times `next` was called on it
(`resumed`, including the final call that raises `StopIteration`).
`scripts` and `scripts_to_add` are the two Python sets, as duplicate-free
lists. -/

structure Sched where
  env : Nat → List (List Nat)
  pos : Nat → Nat
  resumed : Nat → Nat
  scripts : List Nat
  scripts_to_add : List Nat
  script_add_lock : Bool

/-- `Scriptable.add_script` (object.py:40-44): buffer into the side set
while a pass is in progress, else add to the live set (`set.add` dedups). -/
def add_script (g : Nat) (s : Sched) : Sched :=
  if s.script_add_lock then
    if g ∈ s.scripts_to_add then s
    else { s with scripts_to_add := s.scripts_to_add ++ [g] }
  else
    if g ∈ s.scripts then s
    else { s with scripts := s.scripts ++ [g] }

/-- `next(script)` inside the `logic` loop: count the resumption; if the
generator is exhausted it raises `StopIteration` (`true`); otherwise it runs
its next frame, calling `add_script` on each spawned id in order, and
advances. -/
def nextScript (s : Sched) (g : Nat) : Sched × Bool :=
  match (s.env g)[s.pos g]? with
  | none =>
    ({ s with resumed := fun x => if x = g then s.resumed x + 1
                                  else s.resumed x }, true)
  | some frame =>
    let s2 := { s with
      resumed := fun x => if x = g then s.resumed x + 1 else s.resumed x,
      pos := fun x => if x = g then s.pos x + 1 else s.pos x }
    (frame.foldl (fun st h => add_script h st) s2, false)

/-- The `for script in self.scripts` loop of `Scriptable.logic`
(object.py:54-58), accumulating `to_remove`. -/
def runPass : Sched → List Nat → Sched × List Nat
  | s, [] => (s, [])
  | s, g :: gs =>
    let r1 := nextScript s g
    let r2 := runPass r1.1 gs
    (r2.1, if r1.2 then g :: r2.2 else r2.2)

/-- `Scriptable.logic` (object.py:49-61): lock, resume every live script
once, drop the ones that raised `StopIteration`, unlock, and merge the side
buffer into the live set.  As in the source, `scripts_to_add` is *not*
cleared after the merge. -/
def schedLogic (s : Sched) : Sched :=
  let r := runPass { s with script_add_lock := true } s.scripts
  let s1 := { r.1 with scripts :=
                r.1.scripts.filter (fun g => decide (g ∉ r.2)) }
  let s2 := { s1 with script_add_lock := false }
  { s2 with scripts := s2.scripts ++
      s2.scripts_to_add.filter (fun g => decide (g ∉ s2.scripts)) }

/-- `Scriptable.__init__` (object.py:31-38): empty sets, lock down, then
`add_script(self.script())` registers a first generator `g1`. -/
def scriptableInit (env : Nat → List (List Nat)) (g1 : Nat) : Sched :=
  add_script g1
    { env := env, pos := fun _ => 0, resumed := fun _ => 0,
      scripts := [], scripts_to_add := [], script_add_lock := false }

/-- `Object.__init__` (object.py:109-121): runs `Scriptable.__init__`
(which registers a generator of `self.script()`), then calls
`add_script(self.script())` again, creating a second, distinct generator of
the same (possibly overridden) script. -/
def objectInit (env : Nat → List (List Nat)) (g1 g2 : Nat) : Sched :=
  add_script g2 (scriptableInit env g1)

/-- Concrete scheduler for the C1 witness: one live script `0` whose single
frame spawns script `1`. -/
def c1Sched : Sched where
  env := fun h => if h = 0 then [[1]] else []
  pos := fun _ => 0
  resumed := fun _ => 0
  scripts := [0]
  scripts_to_add := []
  script_add_lock := false

/-! ## Scene entity bookkeeping (`State`, state_machine.py:121-207)

Game objects are identified by `Nat` ids.  The environment describes the
behaviour that user code injects: `scriptAdds t` are the ids the *scene's
own scripts* pass to `self.add(...)` while `super().logic()` runs during the
frame whose starting timer is `t`; `spawns o k` are the ids object `o`
passes to `state.add(...)` during its `k`-th `logic()` run; `dies o k` says
whether that run sets `o`'s liveness flag to false.  The scene state mirrors
`State.__init__`: `objects` is the Python set (duplicate-free list),
`add_later` the Python list (kept verbatim, duplicates allowed),
`add_object_lock` the flag.  `nlogic o` counts `o.logic()` calls; `alive` is
the liveness flag.  `update_bg` (background colour) and the particle system
step do not touch the object collection and are not part of this state. -/

structure SceneEnv where
  scriptAdds : Nat → List Nat
  spawns : Nat → Nat → List Nat
  dies : Nat → Nat → Bool

structure Scene where
  env : SceneEnv
  timer : Nat
  objects : List Nat
  add_later : List Nat
  add_object_lock : Bool
  nlogic : Nat → Nat
  alive : Nat → Bool

/-- `State.add` (state_machine.py:189-207): queue while locked, else add to
the live set (`set.add` dedups; `add_later.append` does not). -/
def sceneAdd (o : Nat) (st : Scene) : Scene :=
  if st.add_object_lock then { st with add_later := st.add_later ++ [o] }
  else if o ∈ st.objects then st
  else { st with objects := st.objects ++ [o] }

/-- Call `self.add` on each id of `l`, in order. -/
def addAll (l : List Nat) (st : Scene) : Scene :=
  l.foldl (fun a o => sceneAdd o a) st

/-- One `object.logic()` call inside the `for object in self.objects` loop:
count the run, apply the death effect, and issue the object's
`state.add(...)` calls. -/
def objLogicStep (st : Scene) (o : Nat) : Scene :=
  let k := st.nlogic o + 1
  let st1 := { st with nlogic := fun x => if x = o then st.nlogic x + 1
                                          else st.nlogic x }
  let st2 := if st1.env.dies o k then
      { st1 with alive := fun x => if x = o then false else st1.alive x }
    else st1
  addAll (st1.env.spawns o k) st2

/-- The scene scripts stepped by `super().logic()` at the top of
`State.logic`: their `self.add(...)` calls, under whatever lock state is
current. -/
def sceneScriptsPhase (st : Scene) : Scene :=
  addAll (st.env.scriptAdds st.timer) st

/-- Lines 136-140: unlock, re-`add` every queued object, reset the queue,
lock. -/
def sceneDrain (st : Scene) : Scene :=
  let st1 := { st with add_object_lock := false }
  let st2 := addAll st1.add_later st1
  { st2 with add_later := [], add_object_lock := true }

/-- Lines 143-144: run `logic()` on every live object. -/
def sceneObjectsPhase (st : Scene) : Scene :=
  st.objects.foldl objLogicStep st

/-- Lines 148-153: remove the objects whose liveness flag dropped
(their `on_death` hook fires here). -/
def sceneCleanup (st : Scene) : Scene :=
  { st with objects := st.objects.filter (fun o => st.alive o) }

/-- `State.logic` (state_machine.py:121-153): scripts, timer advance
(`update_bg` only changes the background colour), queued-add drain, object
logic, particle step (no effect on the collection), dead-object cleanup. -/
def sceneLogic (st : Scene) : Scene :=
  let st1 := sceneScriptsPhase st
  let st2 := { st1 with timer := st1.timer + 1 }
  sceneCleanup (sceneObjectsPhase (sceneDrain st2))

/-- Environment for the C5 counterexample: the scene's own script adds
object `5` during the frame that starts with `timer = 1`. -/
def c5Env : SceneEnv where
  scriptAdds := fun t => if t = 1 then [5] else []
  spawns := fun _ _ => []
  dies := fun _ _ => false

/-- Fresh scene under `c5Env` (as after `State.__init__`, with no objects
for simplicity). -/
def c5Scene : Scene where
  env := c5Env
  timer := 0
  objects := []
  add_later := []
  add_object_lock := false
  nlogic := fun _ => 0
  alive := fun _ => true

/-- Environment for the C5 amended-claim witness: object `3` spawns object
`5` during its first `logic()` run. -/
def c5AmEnv : SceneEnv where
  scriptAdds := fun _ => []
  spawns := fun p k => if p = 3 ∧ k = 1 then [5] else []
  dies := fun _ _ => false

/-- Scene with the single live object `3` under `c5AmEnv`. -/
def c5AmScene : Scene where
  env := c5AmEnv
  timer := 0
  objects := [3]
  add_later := []
  add_object_lock := true
  nlogic := fun _ => 0
  alive := fun _ => true

end Luckypot

namespace Luckypot

/-! ## Claim theorems (state machine and fountain) -/

/-- C2: popping a single-element stack empties the stack, fires `on_exit`
on the popped scene exactly once, and fires `on_resume` on no scene. -/
theorem pop_singleton_exit_once_no_resume (s : Nat) :
    applyStateOp .pop none [s] =
      .ok (([] : List Nat), [SEvent.exitEv s]) ∧
    ∀ stack evs, applyStateOp .pop none [s] = .ok (stack, evs) →
      stack = [] ∧ evs.count (SEvent.exitEv s) = 1 ∧
      ∀ t, SEvent.resumeEv t ∉ evs := by
  refine ⟨rfl, ?_⟩
  intro stack evs h
  simp only [applyStateOp, List.getLast?] at h
  injection h with h
  injection h with h1 h2
  subst h1; subst h2
  refine ⟨rfl, by simp, ?_⟩
  intro t ht
  simp at ht

/-- Witness for C2 at scene id `7`. -/
theorem pop_singleton_exit_once_no_resume_witness :
    applyStateOp .pop none [7] =
      .ok (([] : List Nat), [SEvent.exitEv 7]) ∧
    ∀ stack evs, applyStateOp .pop none [7] = .ok (stack, evs) →
      stack = [] ∧ evs.count (SEvent.exitEv 7) = 1 ∧
      ∀ t, SEvent.resumeEv t ∉ evs :=
  pop_singleton_exit_once_no_resume 7

/-- C9: `replace` with a missing new scene (`None`) fails fast (the
`assert new is not None` raises), for every stack. -/
theorem replace_none_fails (stack : List Nat) :
    applyStateOp .replace none stack = .error () := rfl

/-- C8: a fountain whose frequency is exactly 1 emits exactly one particle,
whatever the RNG drew: `rrange(1.0)` has length 1 for every draw
`0 ≤ r` (`random.random()` is non-negative), so the emission count is
deterministic. -/
theorem fountain_rate_one_emits_one (r : ℚ) (gen : Nat → α) (sys : List α)
    (hr : 0 ≤ r) :
    rrangeLen 1 r = 1 ∧
    fountainLogic 1 r gen sys = sys ++ [gen 0] := by
  have hq : pyTrunc (1 : ℚ) = 1 := by
    simp [pyTrunc]
  have hlen : rrangeLen 1 r = 1 := by
    simp only [rrangeLen, hq]
    norm_num
    intro h
    exact absurd (lt_of_le_of_lt hr h) (lt_irrefl 0)
  refine ⟨hlen, ?_⟩
  simp [fountainLogic, hlen, List.range_succ]

/-- Witness for C8 at `r = 1/2`. -/
theorem fountain_rate_one_emits_one_witness :
    (0:ℚ) ≤ 1/2 ∧ (rrangeLen 1 (1/2) = 1 ∧
      fountainLogic 1 (1/2) (fun k => k) [] = [] ++ [0]) :=
  ⟨by norm_num, fountain_rate_one_emits_one (1/2) (fun k => k) [] (by norm_num)⟩

/-! ## Claim theorems (particles) -/

/-- `Particle.logic` written with the integrated state named: pure unfolding
of the sequential lets. -/
theorem particle_logic_eq (cosd sind : ℚ → ℚ) (p : Particle) :
    Particle.logic cosd sind p =
      (if (specIntegrated cosd sind p.d).speed < 0 ∨
          (specIntegrated cosd sind p.d).size ≤ 0 ∨
          (specIntegrated cosd sind p.d).life_prop ≥ 1
       then { p with d := { specIntegrated cosd sind p.d with alive := false } }
       else { p with d := p.animations.foldl (fun x a => a x)
                            (specIntegrated cosd sind p.d) }) := by
  unfold Particle.logic specIntegrated
  rfl

/-- A fold of closures that each preserve `alive` preserves `alive`. -/
theorem foldl_anims_alive (l : List (PData → PData))
    (h : ∀ a ∈ l, ∀ d : PData, (a d).alive = d.alive) :
    ∀ d : PData, (l.foldl (fun x a => a x) d).alive = d.alive := by
  induction l with
  | nil => intro d; rfl
  | cons a t ih =>
    intro d
    rw [List.foldl_cons, ih (fun b hb d => h b (List.mem_cons_of_mem a hb) d)]
    exact h a (List.mem_cons_self a t) d

/-- The source's viability test as the negation of the claim's one. -/
theorem specViable_iff (d : PData) :
    specViable d = true ↔
      ¬(d.speed < 0 ∨ d.size ≤ 0 ∨ d.life_prop ≥ 1) := by
  simp only [specViable, Bool.and_eq_true, decide_eq_true_eq, not_or,
    not_lt, not_le, ge_iff_le, and_assoc]

/-- The liveness flag after one particle update, with the kill condition
spelled out on the pre-update fields. -/
theorem particle_logic_alive (cosd sind : ℚ → ℚ) (p : Particle) :
    (Particle.logic cosd sind p).d.alive =
      if p.d.speed + p.d.acc < 0 ∨ p.d.size ≤ 0 ∨
          1 ≤ p.d.life_prop + 1 / p.d.lifespan
      then false
      else (p.animations.foldl (fun x a => a x)
             (specIntegrated cosd sind p.d)).alive := by
  rw [particle_logic_eq]
  have hproj1 : (specIntegrated cosd sind p.d).speed
      = p.d.speed + p.d.acc := rfl
  have hproj2 : (specIntegrated cosd sind p.d).size = p.d.size := rfl
  have hproj3 : (specIntegrated cosd sind p.d).life_prop
      = p.d.life_prop + 1 / p.d.lifespan := rfl
  by_cases h : p.d.speed + p.d.acc < 0 ∨ p.d.size ≤ 0 ∨
      1 ≤ p.d.life_prop + 1 / p.d.lifespan
  · have hc : (specIntegrated cosd sind p.d).speed < 0 ∨
        (specIntegrated cosd sind p.d).size ≤ 0 ∨
        (specIntegrated cosd sind p.d).life_prop ≥ 1 := by
      rw [hproj1, hproj2, hproj3, ge_iff_le]; exact h
    rw [if_pos hc, if_pos h]
  · have hc : ¬((specIntegrated cosd sind p.d).speed < 0 ∨
        (specIntegrated cosd sind p.d).size ≤ 0 ∨
        (specIntegrated cosd sind p.d).life_prop ≥ 1) := by
      rw [hproj1, hproj2, hproj3, ge_iff_le]; exact h
    rw [if_neg hc, if_neg h]

/-- C3: the per-frame particle update performs, in order, the lifetime
advance, the speed/heading integration, the position integration by the
(updated) polar velocity plus the constant force, the inner-rotation
advance, and then runs the animation closures in registration order only if
the particle is viable (`speed ≥ 0`, `size > 0`, `life_prop < 1`); a
non-viable particle is marked dead and no closure runs: the source update
coincides with the claim's description `specUpdate`. -/
theorem particle_update_follows_spec_order (cosd sind : ℚ → ℚ)
    (p : Particle) :
    Particle.logic cosd sind p = specUpdate cosd sind p := by
  rw [particle_logic_eq]
  unfold specUpdate
  by_cases h : (specIntegrated cosd sind p.d).speed < 0 ∨
      (specIntegrated cosd sind p.d).size ≤ 0 ∨
      (specIntegrated cosd sind p.d).life_prop ≥ 1
  · have hv : specViable (specIntegrated cosd sind p.d) = false := by
      rw [Bool.eq_false_iff]
      intro ht
      exact (specViable_iff _).mp ht h
    rw [if_pos h, hv]
    simp
  · have hv : specViable (specIntegrated cosd sind p.d) = true :=
      (specViable_iff _).mpr h
    rw [if_neg h, hv]
    simp

/-- C7 counterexample: a particle with speed exactly `0` (and positive size,
lifetime far from over) is *not* destroyed by the update — the source kills
only on strictly negative speed — and the engine cleanup does not remove
it. -/
theorem speed_zero_particle_survives :
    zeroSpeedParticle.d.speed ≤ 0 ∧
    (Particle.logic (fun _ => 0) (fun _ => 0) zeroSpeedParticle).d.alive
      = true ∧
    (systemLogic (fun _ => 0) (fun _ => 0) [] [zeroSpeedParticle]).length
      = 1 := by
  have hs : zeroSpeedParticle.d.speed = 0 := rfl
  have hcond : ¬(zeroSpeedParticle.d.speed + zeroSpeedParticle.d.acc < 0 ∨
      zeroSpeedParticle.d.size ≤ 0 ∨
      1 ≤ zeroSpeedParticle.d.life_prop + 1 / zeroSpeedParticle.d.lifespan)
      := by
    have h1 : zeroSpeedParticle.d.acc = 0 := rfl
    have h2 : zeroSpeedParticle.d.size = 10 := rfl
    have h3 : zeroSpeedParticle.d.life_prop = 0 := rfl
    have h4 : zeroSpeedParticle.d.lifespan = 60 := rfl
    rw [hs, h1, h2, h3, h4]
    norm_num
  have ha : (Particle.logic (fun _ => 0) (fun _ => 0)
      zeroSpeedParticle).d.alive = true := by
    rw [particle_logic_alive, if_neg hcond]
    have he : zeroSpeedParticle.animations = [] := rfl
    rw [he]
    rfl
  refine ⟨le_of_eq hs, ha, ?_⟩
  have hsys : systemLogic (fun _ => 0) (fun _ => 0) [] [zeroSpeedParticle] =
      (Particle.logic (fun _ => 0) (fun _ => 0) zeroSpeedParticle
        :: []).filter (fun q => q.d.alive) := rfl
  rw [hsys, List.filter_cons_of_pos]
  · rfl
  · simp [ha]

/-- C7 amended: a live particle (whose animation closures do not touch the
liveness flag, as none in the repository do) is destroyed by the update — and
removed by `ParticleSystem.logic` — exactly when its updated lifetime
proportion reaches 1, its updated speed is strictly negative, or its size is
non-positive. -/
theorem particle_destroyed_iff (cosd sind : ℚ → ℚ) (p : Particle)
    (halive : p.d.alive = true)
    (hanim : ∀ a ∈ p.animations, ∀ d, (a d).alive = d.alive) :
    ((Particle.logic cosd sind p).d.alive = false ↔
      (p.d.speed + p.d.acc < 0 ∨ p.d.size ≤ 0 ∨
        1 ≤ p.d.life_prop + 1 / p.d.lifespan)) ∧
    systemLogic cosd sind [] [p] =
      (if p.d.speed + p.d.acc < 0 ∨ p.d.size ≤ 0 ∨
          1 ≤ p.d.life_prop + 1 / p.d.lifespan
       then [] else [Particle.logic cosd sind p]) := by
  have hfold : (p.animations.foldl (fun x a => a x)
      (specIntegrated cosd sind p.d)).alive = true := by
    rw [foldl_anims_alive p.animations hanim]
    exact halive
  have hsys : systemLogic cosd sind [] [p] =
      (Particle.logic cosd sind p :: []).filter (fun q => q.d.alive) := rfl
  by_cases hc : p.d.speed + p.d.acc < 0 ∨ p.d.size ≤ 0 ∨
      1 ≤ p.d.life_prop + 1 / p.d.lifespan
  · have ha : (Particle.logic cosd sind p).d.alive = false := by
      rw [particle_logic_alive, if_pos hc]
    constructor
    · exact ⟨fun _ => hc, fun _ => ha⟩
    · rw [hsys, if_pos hc, List.filter_cons_of_neg]
      · rfl
      · simp [ha]
  · have ha : (Particle.logic cosd sind p).d.alive = true := by
      rw [particle_logic_alive, if_neg hc]
      exact hfold
    constructor
    · refine ⟨fun h => ?_, fun h => absurd h hc⟩
      rw [ha] at h
      exact absurd h (by decide)
    · rw [hsys, if_neg hc, List.filter_cons_of_pos]
      · rfl
      · simp [ha]

/-- Witness for the amended C7 at the default particle (speed 3, size 10,
lifespan 60, no animations): not destroyed. -/
theorem particle_destroyed_iff_witness :
    ((Particle.logic (fun _ => 0) (fun _ => 0) Particle.init).d.alive = false ↔
      (Particle.init.d.speed + Particle.init.d.acc < 0 ∨
        Particle.init.d.size ≤ 0 ∨
        1 ≤ Particle.init.d.life_prop + 1 / Particle.init.d.lifespan)) ∧
    systemLogic (fun _ => 0) (fun _ => 0) [] [Particle.init] =
      (if Particle.init.d.speed + Particle.init.d.acc < 0 ∨
          Particle.init.d.size ≤ 0 ∨
          1 ≤ Particle.init.d.life_prop + 1 / Particle.init.d.lifespan
       then [] else [Particle.logic (fun _ => 0) (fun _ => 0) Particle.init]) :=
  particle_destroyed_iff (fun _ => 0) (fun _ => 0) Particle.init rfl
    (by intro a ha _; simp [Particle.init] at ha)

/-! ## Claim theorems (drawing) -/

theorem mem_insertZ (x z : Int) (l : List Int) :
    x ∈ insertZ z l ↔ x = z ∨ x ∈ l := by
  induction l with
  | nil => simp [insertZ]
  | cons y ys ih =>
    by_cases h1 : z < y
    · rw [insertZ, if_pos h1]
      simp [List.mem_cons]
    · by_cases h2 : z = y
      · rw [insertZ, if_neg h1, if_pos h2]
        subst h2
        simp only [List.mem_cons]
        tauto
      · rw [insertZ, if_neg h1, if_neg h2]
        simp only [List.mem_cons, ih]
        tauto

theorem insertZ_sorted (z : Int) (l : List Int)
    (h : l.Sorted (· ≤ ·)) : (insertZ z l).Sorted (· ≤ ·) := by
  induction l with
  | nil => simp [insertZ]
  | cons y ys ih =>
    rw [List.sorted_cons] at h
    obtain ⟨hy, hys⟩ := h
    by_cases h1 : z < y
    · rw [insertZ, if_pos h1, List.sorted_cons]
      refine ⟨?_, by rw [List.sorted_cons]; exact ⟨hy, hys⟩⟩
      intro b hb
      rcases List.mem_cons.mp hb with hb | hb
      · exact le_of_lt (hb ▸ h1)
      · exact le_trans (le_of_lt h1) (hy b hb)
    · by_cases h2 : z = y
      · rw [insertZ, if_neg h1, if_pos h2, List.sorted_cons]
        exact ⟨hy, hys⟩
      · rw [insertZ, if_neg h1, if_neg h2, List.sorted_cons]
        refine ⟨?_, ih hys⟩
        intro b hb
        rcases (mem_insertZ b z ys).mp hb with hb | hb
        · exact hb ▸ not_lt.mp h1
        · exact hy b hb

theorem sortedZs_sorted (objs : List (Nat × Int)) :
    (sortedZs objs).Sorted (· ≤ ·) := by
  unfold sortedZs
  generalize (objs.map fun o => o.2) = zs
  suffices h : ∀ (l : List Int) (acc : List Int), acc.Sorted (· ≤ ·) →
      (l.foldl (fun acc z => insertZ z acc) acc).Sorted (· ≤ ·) from
    h zs [] (by simp)
  intro l
  induction l with
  | nil => intro acc h; simpa using h
  | cons z t ih => intro acc h; exact ih _ (insertZ_sorted z acc h)

theorem groupEvents_nil (objs : List (Nat × Int)) :
    groupEvents objs [] = [] := rfl

theorem groupEvents_cons (objs : List (Nat × Int)) (z : Int)
    (zs : List Int) :
    groupEvents objs (z :: zs) = layerEvents objs z ++ groupEvents objs zs
    := by
  simp [groupEvents]

theorem drawLoop_true (objs : List (Nat × Int)) (zs : List Int) :
    drawLoop objs zs true = (groupEvents objs zs, true) := by
  induction zs with
  | nil => rfl
  | cons z t ih =>
    have hc : ¬(0 ≤ z ∧ true = false) := fun h => Bool.noConfusion h.2
    rw [drawLoop, if_neg hc]
    simp [ih, groupEvents_cons]

theorem drawLoop_spec (objs : List (Nat × Int)) (zs : List Int)
    (hs : zs.Sorted (· ≤ ·)) :
    (if (drawLoop objs zs false).2 then (drawLoop objs zs false).1
     else (drawLoop objs zs false).1 ++ [DrawEv.particlesEv]) =
    (match zs.filter (fun z => decide (0 ≤ z)) with
     | [] => groupEvents objs zs ++ [DrawEv.particlesEv]
     | z0 :: rest =>
       groupEvents objs (zs.filter (fun z => decide (z < 0))) ++
         layerEvents objs z0 ++ DrawEv.particlesEv :: groupEvents objs rest)
    := by
  induction zs with
  | nil => simp [drawLoop, groupEvents]
  | cons z t ih =>
    rw [List.sorted_cons] at hs
    obtain ⟨hz, ht⟩ := hs
    by_cases h0 : 0 ≤ z
    · have hc : (0 : Int) ≤ z ∧ false = false := ⟨h0, rfl⟩
      have hf1 : (z :: t).filter (fun y => decide (0 ≤ y)) = z :: t := by
        rw [List.filter_eq_self]
        intro a ha
        rcases List.mem_cons.mp ha with ha | ha
        · simpa [ha] using h0
        · simpa using le_trans h0 (hz a ha)
      have hf2 : (z :: t).filter (fun y => decide (y < 0)) = [] := by
        rw [List.filter_eq_nil_iff]
        intro a ha
        rcases List.mem_cons.mp ha with ha | ha
        · simpa [ha] using h0
        · simpa using le_trans h0 (hz a ha)
      rw [drawLoop, if_pos hc, drawLoop_true, hf1]
      simp [hf2, groupEvents_nil]
    · have hc : ¬(0 ≤ z ∧ false = false) := fun h => h0 h.1
      have hf1 : (z :: t).filter (fun y => decide (0 ≤ y))
          = t.filter (fun y => decide (0 ≤ y)) := by
        rw [List.filter_cons_of_neg]
        simpa using h0
      have hf2 : (z :: t).filter (fun y => decide (y < 0))
          = z :: t.filter (fun y => decide (y < 0)) := by
        rw [List.filter_cons_of_pos]
        simpa using not_le.mp h0
      have hlhs : (if (drawLoop objs (z :: t) false).2
            then (drawLoop objs (z :: t) false).1
            else (drawLoop objs (z :: t) false).1 ++ [DrawEv.particlesEv])
          = layerEvents objs z ++
            (if (drawLoop objs t false).2 then (drawLoop objs t false).1
             else (drawLoop objs t false).1 ++ [DrawEv.particlesEv]) := by
        rw [drawLoop, if_neg hc]
        cases h2 : (drawLoop objs t false).2 <;> simp [h2]
      rw [hlhs, ih ht, hf1]
      cases hm : t.filter (fun y => decide (0 ≤ y)) with
      | nil => simp [groupEvents_cons]
      | cons z0 rest => simp [groupEvents_cons, hf2]

/-- C4 counterexample: a scene whose only entity has depth key `Z = 0`.
The source draws that entity *before* the particle layer, while the claim
places the particle layer before every entity with non-negative depth
key. -/
theorem draw_z0_counterexample :
    stateDraw [(1, 0)] = [DrawEv.obj 1, DrawEv.particlesEv] ∧
    stateDraw [(1, 0)] ≠ [DrawEv.particlesEv, DrawEv.obj 1] := by
  have h1 : stateDraw [(1, 0)] = [DrawEv.obj 1, DrawEv.particlesEv] := rfl
  refine ⟨h1, ?_⟩
  intro h
  rw [h1] at h
  exact absurd h (by decide)

/-- C4 amended: entities are drawn grouped by depth key in ascending order,
and the particle layer is drawn immediately *after* the group of entities
with the smallest non-negative depth key (hence after all negative-depth
groups, before all higher groups); if no entity has a non-negative depth
key the particle layer is drawn at the very end: the source draw trace
equals `specDraw`. -/
theorem state_draw_amended (objs : List (Nat × Int)) :
    stateDraw objs = specDraw objs :=
  drawLoop_spec objs (sortedZs objs) (sortedZs_sorted objs)

/-! ## Claim theorems (scheduler) -/

theorem add_script_locked_eq (g : Nat) (s : Sched)
    (h : s.script_add_lock = true) :
    add_script g s = if g ∈ s.scripts_to_add then s
      else { s with scripts_to_add := s.scripts_to_add ++ [g] } := by
  unfold add_script
  rw [h]
  simp

theorem add_script_unlocked_eq (g : Nat) (s : Sched)
    (h : s.script_add_lock = false) :
    add_script g s = if g ∈ s.scripts then s
      else { s with scripts := s.scripts ++ [g] } := by
  unfold add_script
  rw [h]
  simp

/-- Folding `add_script` over a spawn list while the lock is held only
appends to the side buffer: every other field is untouched, the buffer
grows monotonically, receives every spawned id, and stays duplicate-free. -/
theorem foldl_add_locked (l : List Nat) : ∀ s : Sched,
    s.script_add_lock = true →
    (l.foldl (fun st h => add_script h st) s).env = s.env ∧
    (l.foldl (fun st h => add_script h st) s).pos = s.pos ∧
    (l.foldl (fun st h => add_script h st) s).resumed = s.resumed ∧
    (l.foldl (fun st h => add_script h st) s).scripts = s.scripts ∧
    (l.foldl (fun st h => add_script h st) s).script_add_lock = true ∧
    (∀ x, x ∈ s.scripts_to_add →
      x ∈ (l.foldl (fun st h => add_script h st) s).scripts_to_add) ∧
    (∀ x, x ∈ l →
      x ∈ (l.foldl (fun st h => add_script h st) s).scripts_to_add) ∧
    (s.scripts_to_add.Nodup →
      (l.foldl (fun st h => add_script h st) s).scripts_to_add.Nodup) := by
  induction l with
  | nil =>
    intro s h
    exact ⟨rfl, rfl, rfl, rfl, h, fun x hx => hx,
      fun x hx => absurd hx (List.not_mem_nil x), id⟩
  | cons a t ih =>
    intro s h
    have hstep : (add_script a s).env = s.env ∧
        (add_script a s).pos = s.pos ∧
        (add_script a s).resumed = s.resumed ∧
        (add_script a s).scripts = s.scripts ∧
        (add_script a s).script_add_lock = true ∧
        (∀ x, x ∈ s.scripts_to_add → x ∈ (add_script a s).scripts_to_add) ∧
        a ∈ (add_script a s).scripts_to_add ∧
        (s.scripts_to_add.Nodup → (add_script a s).scripts_to_add.Nodup)
        := by
      rw [add_script_locked_eq a s h]
      by_cases hm : a ∈ s.scripts_to_add
      · rw [if_pos hm]
        exact ⟨rfl, rfl, rfl, rfl, h, fun x hx => hx, hm, id⟩
      · rw [if_neg hm]
        refine ⟨rfl, rfl, rfl, rfl, h, ?_, ?_, ?_⟩
        · intro x hx
          simp [hx]
        · simp
        · intro hnd
          simp [List.nodup_append, hnd, hm]
    have hit := ih (add_script a s) hstep.2.2.2.2.1
    have hfold : (a :: t).foldl (fun st h => add_script h st) s
        = t.foldl (fun st h => add_script h st) (add_script a s) :=
      List.foldl_cons _ _
    rw [hfold]
    refine ⟨hit.1.trans hstep.1, hit.2.1.trans hstep.2.1,
      hit.2.2.1.trans hstep.2.2.1, hit.2.2.2.1.trans hstep.2.2.2.1,
      hit.2.2.2.2.1, ?_, ?_, ?_⟩
    · intro x hx
      exact hit.2.2.2.2.2.1 x (hstep.2.2.2.2.2.1 x hx)
    · intro x hx
      rcases List.mem_cons.mp hx with hx | hx
      · exact hit.2.2.2.2.2.1 x (hx ▸ hstep.2.2.2.2.2.2.1)
      · exact hit.2.2.2.2.2.2.1 x hx
    · intro hnd
      exact hit.2.2.2.2.2.2.2 (hstep.2.2.2.2.2.2.2 hnd)

/-- Stepping one generator while the lock is held: the live set, lock, env
are untouched; other generators' program counters are untouched; the
resumption count of exactly the stepped generator goes up by one; the side
buffer grows monotonically and stays duplicate-free. -/
theorem nextScript_fields (s : Sched) (g : Nat)
    (h : s.script_add_lock = true) :
    (nextScript s g).1.env = s.env ∧
    (nextScript s g).1.scripts = s.scripts ∧
    (nextScript s g).1.script_add_lock = true ∧
    (∀ x, x ≠ g → (nextScript s g).1.pos x = s.pos x) ∧
    (∀ x, (nextScript s g).1.resumed x
      = s.resumed x + if x = g then 1 else 0) ∧
    (∀ x, x ∈ s.scripts_to_add → x ∈ (nextScript s g).1.scripts_to_add) ∧
    (s.scripts_to_add.Nodup → (nextScript s g).1.scripts_to_add.Nodup)
    := by
  cases hfr : (s.env g)[s.pos g]? with
  | none =>
    have he : nextScript s g =
        ({ s with resumed := fun x => if x = g then s.resumed x + 1
                                      else s.resumed x }, true) := by
      unfold nextScript
      rw [hfr]
    rw [he]
    refine ⟨rfl, rfl, h, fun x _ => rfl, fun x => ?_, fun x hx => hx, id⟩
    by_cases hxg : x = g <;> simp [hxg]
  | some frame =>
    have he : nextScript s g =
        (frame.foldl (fun st h => add_script h st)
          { s with
            resumed := fun x => if x = g then s.resumed x + 1
                                else s.resumed x,
            pos := fun x => if x = g then s.pos x + 1 else s.pos x },
         false) := by
      unfold nextScript
      rw [hfr]
    have hf := foldl_add_locked frame
      { s with
        resumed := fun x => if x = g then s.resumed x + 1 else s.resumed x,
        pos := fun x => if x = g then s.pos x + 1 else s.pos x } h
    rw [he]
    refine ⟨hf.1, hf.2.2.2.1, hf.2.2.2.2.1, ?_, ?_, hf.2.2.2.2.2.1,
      hf.2.2.2.2.2.2.2⟩
    · intro x hxg
      rw [hf.2.1]
      simp [hxg]
    · intro x
      rw [hf.2.2.1]
      by_cases hxg : x = g <;> simp [hxg]

/-- A generator whose current frame spawns `x` puts `x` into the side
buffer when stepped under the lock. -/
theorem nextScript_spawn (s : Sched) (g x : Nat)
    (h : s.script_add_lock = true) (fr : List Nat)
    (hfr : (s.env g)[s.pos g]? = some fr) (hx : x ∈ fr) :
    x ∈ (nextScript s g).1.scripts_to_add := by
  have he : nextScript s g =
      (fr.foldl (fun st h => add_script h st)
        { s with
          resumed := fun x => if x = g then s.resumed x + 1
                              else s.resumed x,
          pos := fun x => if x = g then s.pos x + 1 else s.pos x },
       false) := by
    unfold nextScript
    rw [hfr]
  rw [he]
  exact (foldl_add_locked fr
    { s with
      resumed := fun x => if x = g then s.resumed x + 1 else s.resumed x,
      pos := fun x => if x = g then s.pos x + 1 else s.pos x }
    h).2.2.2.2.2.2.1 x hx

/-- The whole `for script in self.scripts` pass, while locked: live set,
lock and env invariant; program counters of ids outside the iterated list
invariant; each id's resumption count goes up by its multiplicity in the
list; the side buffer grows monotonically and stays duplicate-free. -/
theorem runPass_fields (l : List Nat) : ∀ s : Sched,
    s.script_add_lock = true →
    (runPass s l).1.env = s.env ∧
    (runPass s l).1.scripts = s.scripts ∧
    (runPass s l).1.script_add_lock = true ∧
    (∀ x, x ∉ l → (runPass s l).1.pos x = s.pos x) ∧
    (∀ x, (runPass s l).1.resumed x = s.resumed x + l.count x) ∧
    (∀ x, x ∈ s.scripts_to_add → x ∈ (runPass s l).1.scripts_to_add) ∧
    (s.scripts_to_add.Nodup → (runPass s l).1.scripts_to_add.Nodup) := by
  induction l with
  | nil =>
    intro s h
    exact ⟨rfl, rfl, h, fun x _ => rfl,
      fun x => by simp [runPass], fun x hx => hx, id⟩
  | cons a t ih =>
    intro s h
    have hns := nextScript_fields s a h
    have hit := ih (nextScript s a).1 hns.2.2.1
    have hr : (runPass s (a :: t)).1 = (runPass (nextScript s a).1 t).1 :=
      by rw [runPass]
    rw [hr]
    refine ⟨hit.1.trans hns.1, hit.2.1.trans hns.2.1, hit.2.2.1,
      ?_, ?_, ?_, ?_⟩
    · intro x hx
      have hxa : x ≠ a := fun hxa => hx (hxa ▸ List.mem_cons_self a t)
      have hxt : x ∉ t := fun hxt => hx (List.mem_cons_of_mem a hxt)
      exact (hit.2.2.2.1 x hxt).trans (hns.2.2.2.1 x hxa)
    · intro x
      rw [hit.2.2.2.2.1 x, hns.2.2.2.2.1 x, List.count_cons]
      by_cases hxa : x = a <;> simp [hxa] <;> omega
    · intro x hx
      exact hit.2.2.2.2.2.1 x (hns.2.2.2.2.2.1 x hx)
    · intro hnd
      exact hit.2.2.2.2.2.2 (hns.2.2.2.2.2.2 hnd)

/-- An id spawned by the current frame of any generator in the iterated
list ends up in the side buffer at the end of the pass. -/
theorem runPass_spawn (l : List Nat) : ∀ (s : Sched) (g x : Nat)
    (fr : List Nat), s.script_add_lock = true → l.Nodup → g ∈ l →
    (s.env g)[s.pos g]? = some fr → x ∈ fr →
    x ∈ (runPass s l).1.scripts_to_add := by
  induction l with
  | nil =>
    intro s g x fr _ _ hg _ _
    exact absurd hg (List.not_mem_nil g)
  | cons a t ih =>
    intro s g x fr h hnd hg hfr hx
    have hr : (runPass s (a :: t)).1 = (runPass (nextScript s a).1 t).1 :=
      by rw [runPass]
    rw [hr]
    have hns := nextScript_fields s a h
    rcases List.mem_cons.mp hg with hga | hgt
    · subst hga
      have hbuf : x ∈ (nextScript s g).1.scripts_to_add :=
        nextScript_spawn s g x h fr hfr hx
      exact (runPass_fields t (nextScript s g).1
        hns.2.2.1).2.2.2.2.2.1 x hbuf
    · have hga : g ≠ a := by
        rintro rfl
        exact (List.nodup_cons.mp hnd).1 hgt
      have hfr2 : ((nextScript s a).1.env g)[(nextScript s a).1.pos g]?
          = some fr := by
        rw [hns.1, hns.2.2.2.1 g hga]
        exact hfr
      exact ih (nextScript s a).1 g x fr hns.2.2.1
        (List.nodup_cons.mp hnd).2 hgt hfr2 hx

/-- After `logic()`, each id's resumption count has gone up by its
multiplicity in the live set at the start of the pass. -/
theorem schedLogic_resumed (s : Sched) (x : Nat) :
    (schedLogic s).resumed x = s.resumed x + s.scripts.count x :=
  (runPass_fields s.scripts { s with script_add_lock := true }
    rfl).2.2.2.2.1 x

/-- The live set after `logic()`: survivors of the pass plus the merged
side buffer. -/
theorem schedLogic_scripts_eq (s : Sched) :
    (schedLogic s).scripts =
      (runPass { s with script_add_lock := true } s.scripts).1.scripts.filter
        (fun g => decide
          (g ∉ (runPass { s with script_add_lock := true } s.scripts).2)) ++
      (runPass { s with script_add_lock := true }
          s.scripts).1.scripts_to_add.filter
        (fun g => decide (g ∉
          (runPass { s with script_add_lock := true }
            s.scripts).1.scripts.filter
          (fun g => decide
            (g ∉ (runPass { s with script_add_lock := true }
              s.scripts).2)))) := rfl

theorem schedLogic_scripts_mem (s : Sched) (g : Nat) :
    g ∈ (schedLogic s).scripts ↔
      (g ∈ s.scripts ∧
        g ∉ (runPass { s with script_add_lock := true } s.scripts).2) ∨
      g ∈ (runPass { s with script_add_lock := true }
        s.scripts).1.scripts_to_add := by
  have hscripts : (runPass { s with script_add_lock := true }
      s.scripts).1.scripts = s.scripts :=
    (runPass_fields s.scripts { s with script_add_lock := true } rfl).2.1
  rw [schedLogic_scripts_eq, hscripts]
  simp only [List.mem_append, List.mem_filter, decide_eq_true_eq]
  tauto

theorem schedLogic_scripts_nodup (s : Sched)
    (h1 : s.scripts.Nodup) (h2 : s.scripts_to_add.Nodup) :
    (schedLogic s).scripts.Nodup := by
  have hf := runPass_fields s.scripts { s with script_add_lock := true } rfl
  rw [schedLogic_scripts_eq]
  refine List.Nodup.append ?_ ?_ ?_
  · rw [hf.2.1]
    exact h1.filter _
  · exact (hf.2.2.2.2.2.2 h2).filter _
  · intro a haA haB
    have hd := (List.mem_filter.mp haB).2
    rw [decide_eq_true_eq] at hd
    exact hd haA

/-- C1: a routine spawned via `add_script` from within a `logic()` pass
lands in the side buffer `scripts_to_add`, is not resumed during that same
pass, is merged into the live set when the pass completes, and is first
resumed — exactly once — on the next call to `logic()`. -/
theorem script_added_during_pass_first_runs_next_pass (s : Sched)
    (g : Nat)
    (hnodupS : s.scripts.Nodup) (hnodupB : s.scripts_to_add.Nodup)
    (hgS : g ∉ s.scripts) (hgB : g ∉ s.scripts_to_add)
    (hspawn : ∃ p ∈ s.scripts, ∃ fr,
      (s.env p)[s.pos p]? = some fr ∧ g ∈ fr) :
    g ∈ (runPass { s with script_add_lock := true }
      s.scripts).1.scripts_to_add ∧
    (schedLogic s).resumed g = s.resumed g ∧
    g ∈ (schedLogic s).scripts ∧
    (schedLogic (schedLogic s)).resumed g = s.resumed g + 1 := by
  obtain ⟨p, hp, fr, hfr, hgfr⟩ := hspawn
  have hbuf : g ∈ (runPass { s with script_add_lock := true }
      s.scripts).1.scripts_to_add :=
    runPass_spawn s.scripts { s with script_add_lock := true } p g fr rfl
      hnodupS hp hfr hgfr
  have hres1 : (schedLogic s).resumed g = s.resumed g := by
    rw [schedLogic_resumed, List.count_eq_zero.mpr hgS, Nat.add_zero]
  have hmem : g ∈ (schedLogic s).scripts :=
    (schedLogic_scripts_mem s g).mpr (Or.inr hbuf)
  have hnd : (schedLogic s).scripts.Nodup :=
    schedLogic_scripts_nodup s hnodupS hnodupB
  refine ⟨hbuf, hres1, hmem, ?_⟩
  rw [schedLogic_resumed, hres1, List.count_eq_one_of_mem hnd hmem]

/-- Witness for C1 on `c1Sched` (one live script `0` spawning `1`). -/
theorem script_added_during_pass_first_runs_next_pass_witness :
    (c1Sched.scripts.Nodup ∧ c1Sched.scripts_to_add.Nodup ∧
     1 ∉ c1Sched.scripts ∧ 1 ∉ c1Sched.scripts_to_add ∧
     (∃ p ∈ c1Sched.scripts, ∃ fr,
       (c1Sched.env p)[c1Sched.pos p]? = some fr ∧ 1 ∈ fr)) ∧
    (1 ∈ (runPass { c1Sched with script_add_lock := true }
      c1Sched.scripts).1.scripts_to_add ∧
     (schedLogic c1Sched).resumed 1 = c1Sched.resumed 1 ∧
     1 ∈ (schedLogic c1Sched).scripts ∧
     (schedLogic (schedLogic c1Sched)).resumed 1
       = c1Sched.resumed 1 + 1) :=
  ⟨⟨by decide, by decide, by decide, by decide,
    ⟨0, by decide, [1], by decide, by decide⟩⟩,
   script_added_during_pass_first_runs_next_pass c1Sched 1 (by decide)
     (by decide) (by decide) (by decide)
     ⟨0, by decide, [1], by decide, by decide⟩⟩

theorem scriptableInit_eq (env : Nat → List (List Nat)) (g1 : Nat) :
    scriptableInit env g1 =
      { env := env, pos := fun _ => 0, resumed := fun _ => 0,
        scripts := [g1], scripts_to_add := [],
        script_add_lock := false } := by
  unfold scriptableInit
  rw [add_script_unlocked_eq _ _ rfl]
  simp

theorem objectInit_eq (env : Nat → List (List Nat)) (g1 g2 : Nat)
    (hne : g1 ≠ g2) :
    objectInit env g1 g2 =
      { env := env, pos := fun _ => 0, resumed := fun _ => 0,
        scripts := [g1, g2], scripts_to_add := [],
        script_add_lock := false } := by
  unfold objectInit
  rw [scriptableInit_eq, add_script_unlocked_eq _ _ rfl, if_neg]
  · rfl
  · simp [Ne.symm hne]

/-- C10: `Object.__init__` registers the generator returned by
`self.script()` twice — once via `Scriptable.__init__` and once again
itself — so two distinct generator instances are live, and a single
`logic()` pass resumes both. -/
theorem object_registers_script_twice (env : Nat → List (List Nat))
    (g1 g2 : Nat) (hne : g1 ≠ g2) :
    (objectInit env g1 g2).scripts = [g1, g2] ∧
    (schedLogic (objectInit env g1 g2)).resumed g1 = 1 ∧
    (schedLogic (objectInit env g1 g2)).resumed g2 = 1 := by
  have he := objectInit_eq env g1 g2 hne
  have hs : (objectInit env g1 g2).scripts = [g1, g2] := by rw [he]
  have hr0 : (objectInit env g1 g2).resumed = fun _ => 0 := by rw [he]
  refine ⟨hs, ?_, ?_⟩
  · rw [schedLogic_resumed, hs, hr0]
    simp [List.count_cons, hne]
  · rw [schedLogic_resumed, hs, hr0]
    simp [List.count_cons, Ne.symm hne]

/-- Witness for C10 at generator ids `0` and `1` and a trivial one-frame
script body. -/
theorem object_registers_script_twice_witness :
    (objectInit (fun _ => [[]]) 0 1).scripts = [0, 1] ∧
    (schedLogic (objectInit (fun _ => [[]]) 0 1)).resumed 0 = 1 ∧
    (schedLogic (objectInit (fun _ => [[]]) 0 1)).resumed 1 = 1 :=
  object_registers_script_twice (fun _ => [[]]) 0 1 (by decide)

/-! ## Claim theorems (scene entity bookkeeping) -/

theorem sceneAdd_fields (a : Nat) (st : Scene) :
    (sceneAdd a st).env = st.env ∧
    (sceneAdd a st).timer = st.timer ∧
    (sceneAdd a st).nlogic = st.nlogic ∧
    (sceneAdd a st).alive = st.alive ∧
    (sceneAdd a st).add_object_lock = st.add_object_lock ∧
    (∀ x, x ∈ (sceneAdd a st).objects ↔ x ∈ st.objects ∨
      (st.add_object_lock = false ∧ x = a)) ∧
    (∀ x, x ∈ (sceneAdd a st).add_later ↔ x ∈ st.add_later ∨
      (st.add_object_lock = true ∧ x = a)) ∧
    (st.objects.Nodup → (sceneAdd a st).objects.Nodup) := by
  unfold sceneAdd
  by_cases hl : st.add_object_lock = true
  · rw [if_pos hl]
    refine ⟨rfl, rfl, rfl, rfl, rfl, ?_, ?_, id⟩
    · intro x
      simp [hl]
    · intro x
      simp [hl]
  · rw [if_neg hl]
    rw [Bool.not_eq_true] at hl
    by_cases hm : a ∈ st.objects
    · rw [if_pos hm]
      refine ⟨rfl, rfl, rfl, rfl, rfl, ?_, ?_, id⟩
      · intro x
        constructor
        · exact fun hx => Or.inl hx
        · rintro (hx | ⟨-, rfl⟩)
          · exact hx
          · exact hm
      · intro x
        simp [hl]
    · rw [if_neg hm]
      refine ⟨rfl, rfl, rfl, rfl, rfl, ?_, ?_, ?_⟩
      · intro x
        simp [hl]
      · intro x
        simp [hl]
      · intro hnd
        simp [List.nodup_append, hnd, hm]

theorem addAll_fields (l : List Nat) : ∀ st : Scene,
    (addAll l st).env = st.env ∧
    (addAll l st).timer = st.timer ∧
    (addAll l st).nlogic = st.nlogic ∧
    (addAll l st).alive = st.alive ∧
    (addAll l st).add_object_lock = st.add_object_lock ∧
    (∀ x, x ∈ (addAll l st).objects ↔ x ∈ st.objects ∨
      (st.add_object_lock = false ∧ x ∈ l)) ∧
    (∀ x, x ∈ (addAll l st).add_later ↔ x ∈ st.add_later ∨
      (st.add_object_lock = true ∧ x ∈ l)) ∧
    (st.objects.Nodup → (addAll l st).objects.Nodup) := by
  induction l with
  | nil =>
    intro st
    refine ⟨rfl, rfl, rfl, rfl, rfl, ?_, ?_, id⟩ <;> intro x <;>
      simp [addAll]
  | cons a t ih =>
    intro st
    have hstep := sceneAdd_fields a st
    have hit := ih (sceneAdd a st)
    have hfold : addAll (a :: t) st = addAll t (sceneAdd a st) := by
      unfold addAll
      exact List.foldl_cons _ _
    rw [hfold]
    have hlock := hstep.2.2.2.2.1
    refine ⟨hit.1.trans hstep.1, hit.2.1.trans hstep.2.1,
      hit.2.2.1.trans hstep.2.2.1, hit.2.2.2.1.trans hstep.2.2.2.1,
      hit.2.2.2.2.1.trans hlock, ?_, ?_, ?_⟩
    · intro x
      rw [hit.2.2.2.2.2.1 x, hstep.2.2.2.2.2.1 x, hlock]
      simp only [List.mem_cons]
      tauto
    · intro x
      rw [hit.2.2.2.2.2.2.1 x, hstep.2.2.2.2.2.2.1 x, hlock]
      simp only [List.mem_cons]
      tauto
    · intro hnd
      exact hit.2.2.2.2.2.2.2 (hstep.2.2.2.2.2.2.2 hnd)

theorem sceneDrain_fields (st : Scene) :
    (sceneDrain st).env = st.env ∧
    (sceneDrain st).timer = st.timer ∧
    (sceneDrain st).nlogic = st.nlogic ∧
    (sceneDrain st).alive = st.alive ∧
    (sceneDrain st).add_object_lock = true ∧
    (sceneDrain st).add_later = [] ∧
    (∀ x, x ∈ (sceneDrain st).objects ↔ x ∈ st.objects ∨
      x ∈ st.add_later) ∧
    (st.objects.Nodup → (sceneDrain st).objects.Nodup) := by
  have hf := addAll_fields st.add_later { st with add_object_lock := false }
  have hd : sceneDrain st =
      { addAll st.add_later { st with add_object_lock := false } with
        add_later := [], add_object_lock := true } := rfl
  rw [hd]
  refine ⟨hf.1, hf.2.1, hf.2.2.1, hf.2.2.2.1, rfl, rfl, ?_,
    hf.2.2.2.2.2.2.2⟩
  intro x
  rw [hf.2.2.2.2.2.1 x]
  simp

theorem addAll_objects_locked (l : List Nat) : ∀ st : Scene,
    st.add_object_lock = true → (addAll l st).objects = st.objects := by
  induction l with
  | nil => intro st _; rfl
  | cons a t ih =>
    intro st h
    have hfold : addAll (a :: t) st = addAll t (sceneAdd a st) := by
      unfold addAll
      exact List.foldl_cons _ _
    have hstep : (sceneAdd a st).objects = st.objects := by
      unfold sceneAdd
      rw [if_pos h]
    rw [hfold, ih (sceneAdd a st) ((sceneAdd_fields a st).2.2.2.2.1.trans h),
      hstep]

theorem objLogicStep_eq (st : Scene) (o : Nat) :
    objLogicStep st o =
      addAll (st.env.spawns o (st.nlogic o + 1))
        (if st.env.dies o (st.nlogic o + 1) then
          { st with
            nlogic := fun x => if x = o then st.nlogic x + 1
                               else st.nlogic x,
            alive := fun x => if x = o then false else st.alive x }
         else
          { st with nlogic := fun x => if x = o then st.nlogic x + 1
                                       else st.nlogic x }) := by
  unfold objLogicStep
  dsimp only

theorem objLogicStep_fields (st : Scene) (o : Nat)
    (h : st.add_object_lock = true) :
    (objLogicStep st o).env = st.env ∧
    (objLogicStep st o).timer = st.timer ∧
    (objLogicStep st o).add_object_lock = true ∧
    (objLogicStep st o).objects = st.objects ∧
    (∀ x, (objLogicStep st o).nlogic x
      = st.nlogic x + if x = o then 1 else 0) ∧
    (∀ x, x ∈ st.add_later → x ∈ (objLogicStep st o).add_later) ∧
    (∀ x, x ∈ st.env.spawns o (st.nlogic o + 1) →
      x ∈ (objLogicStep st o).add_later) := by
  rw [objLogicStep_eq]
  by_cases hd : st.env.dies o (st.nlogic o + 1)
  · rw [if_pos hd]
    have hf := addAll_fields (st.env.spawns o (st.nlogic o + 1))
      { st with
        nlogic := fun x => if x = o then st.nlogic x + 1
                           else st.nlogic x,
        alive := fun x => if x = o then false else st.alive x }
    refine ⟨hf.1, hf.2.1, hf.2.2.2.2.1.trans h,
      addAll_objects_locked _ _ h, ?_, ?_, ?_⟩
    · intro x
      rw [hf.2.2.1]
      by_cases hxo : x = o <;> simp [hxo]
    · intro x hx
      exact (hf.2.2.2.2.2.2.1 x).mpr (Or.inl hx)
    · intro x hx
      exact (hf.2.2.2.2.2.2.1 x).mpr (Or.inr ⟨h, hx⟩)
  · rw [if_neg hd]
    have hf := addAll_fields (st.env.spawns o (st.nlogic o + 1))
      { st with
        nlogic := fun x => if x = o then st.nlogic x + 1
                           else st.nlogic x }
    refine ⟨hf.1, hf.2.1, hf.2.2.2.2.1.trans h,
      addAll_objects_locked _ _ h, ?_, ?_, ?_⟩
    · intro x
      rw [hf.2.2.1]
      by_cases hxo : x = o <;> simp [hxo]
    · intro x hx
      exact (hf.2.2.2.2.2.2.1 x).mpr (Or.inl hx)
    · intro x hx
      exact (hf.2.2.2.2.2.2.1 x).mpr (Or.inr ⟨h, hx⟩)

theorem foldl_objLogic_fields (l : List Nat) : ∀ st : Scene,
    st.add_object_lock = true →
    (l.foldl objLogicStep st).env = st.env ∧
    (l.foldl objLogicStep st).timer = st.timer ∧
    (l.foldl objLogicStep st).add_object_lock = true ∧
    (l.foldl objLogicStep st).objects = st.objects ∧
    (∀ x, (l.foldl objLogicStep st).nlogic x
      = st.nlogic x + l.count x) ∧
    (∀ x, x ∈ st.add_later → x ∈ (l.foldl objLogicStep st).add_later)
    := by
  induction l with
  | nil =>
    intro st h
    exact ⟨rfl, rfl, h, rfl, fun x => by simp, fun x hx => hx⟩
  | cons a t ih =>
    intro st h
    have hstep := objLogicStep_fields st a h
    have hit := ih (objLogicStep st a) hstep.2.2.1
    have hfold : (a :: t).foldl objLogicStep st
        = t.foldl objLogicStep (objLogicStep st a) :=
      List.foldl_cons _ _
    rw [hfold]
    refine ⟨hit.1.trans hstep.1, hit.2.1.trans hstep.2.1, hit.2.2.1,
      hit.2.2.2.1.trans hstep.2.2.2.1, ?_, ?_⟩
    · intro x
      rw [hit.2.2.2.2.1 x, hstep.2.2.2.2.1 x, List.count_cons]
      by_cases hxa : x = a <;> simp [hxa] <;> omega
    · intro x hx
      exact hit.2.2.2.2.2 x (hstep.2.2.2.2.2.1 x hx)

theorem foldl_objLogic_spawn (l : List Nat) : ∀ (st : Scene) (p x : Nat),
    st.add_object_lock = true → l.Nodup → p ∈ l →
    x ∈ st.env.spawns p (st.nlogic p + 1) →
    x ∈ (l.foldl objLogicStep st).add_later := by
  induction l with
  | nil =>
    intro st p x _ _ hp _
    exact absurd hp (List.not_mem_nil p)
  | cons a t ih =>
    intro st p x h hnd hp hx
    have hstep := objLogicStep_fields st a h
    have hfold : (a :: t).foldl objLogicStep st
        = t.foldl objLogicStep (objLogicStep st a) :=
      List.foldl_cons _ _
    rw [hfold]
    rcases List.mem_cons.mp hp with hpa | hpt
    · subst hpa
      have hbuf : x ∈ (objLogicStep st p).add_later :=
        hstep.2.2.2.2.2.2 x hx
      exact (foldl_objLogic_fields t (objLogicStep st p)
        hstep.2.2.1).2.2.2.2.2 x hbuf
    · have hpa : p ≠ a := by
        rintro rfl
        exact (List.nodup_cons.mp hnd).1 hpt
      have hx2 : x ∈ (objLogicStep st a).env.spawns p
          ((objLogicStep st a).nlogic p + 1) := by
        rw [hstep.1, hstep.2.2.2.2.1 p]
        simpa [hpa] using hx
      exact ih (objLogicStep st a) p x hstep.2.2.1
        (List.nodup_cons.mp hnd).2 hpt hx2

theorem sceneCleanup_fields (st : Scene) :
    (sceneCleanup st).env = st.env ∧ (sceneCleanup st).timer = st.timer ∧
    (sceneCleanup st).nlogic = st.nlogic ∧
    (sceneCleanup st).add_later = st.add_later ∧
    (sceneCleanup st).add_object_lock = st.add_object_lock ∧
    (∀ x, x ∈ (sceneCleanup st).objects → x ∈ st.objects) ∧
    (st.objects.Nodup → (sceneCleanup st).objects.Nodup) :=
  ⟨rfl, rfl, rfl, rfl, rfl,
   fun _ hx => (List.mem_filter.mp hx).1, fun h => h.filter _⟩

theorem sceneLogic_lock (st : Scene) :
    (sceneLogic st).add_object_lock = true := by
  have hD := sceneDrain_fields
    { sceneScriptsPhase st with timer := (sceneScriptsPhase st).timer + 1 }
  exact (foldl_objLogic_fields
    (sceneDrain { sceneScriptsPhase st with
      timer := (sceneScriptsPhase st).timer + 1 }).objects
    (sceneDrain { sceneScriptsPhase st with
      timer := (sceneScriptsPhase st).timer + 1 })
    hD.2.2.2.2.1).2.2.1

theorem sceneLogic_nodup (st : Scene) (h : st.objects.Nodup) :
    (sceneLogic st).objects.Nodup := by
  have hA := addAll_fields (st.env.scriptAdds st.timer) st
  have hAnd : (sceneScriptsPhase st).objects.Nodup :=
    hA.2.2.2.2.2.2.2 h
  have hD := sceneDrain_fields
    { sceneScriptsPhase st with timer := (sceneScriptsPhase st).timer + 1 }
  have hDnd : (sceneDrain { sceneScriptsPhase st with
      timer := (sceneScriptsPhase st).timer + 1 }).objects.Nodup :=
    hD.2.2.2.2.2.2.2 hAnd
  have hop := foldl_objLogic_fields
    (sceneDrain { sceneScriptsPhase st with
      timer := (sceneScriptsPhase st).timer + 1 }).objects
    (sceneDrain { sceneScriptsPhase st with
      timer := (sceneScriptsPhase st).timer + 1 })
    hD.2.2.2.2.1
  have hOnd : (sceneObjectsPhase (sceneDrain { sceneScriptsPhase st with
      timer := (sceneScriptsPhase st).timer + 1 })).objects.Nodup := by
    show ((sceneDrain { sceneScriptsPhase st with
      timer := (sceneScriptsPhase st).timer + 1 }).objects.foldl
        objLogicStep _).objects.Nodup
    rw [hop.2.2.2.1]
    exact hDnd
  exact hOnd.filter _

/-- C5 amended: an entity queued through the locked `add()` path *after*
the frame's drain point — here, spawned from a live object's `logic()`
during the object iteration — does not run `logic()` and is absent from the
object collection (hence from `draw()`) in that frame, sits in `add_later`,
and first runs `logic()` in the next frame, after that frame's drain. -/
theorem queued_add_runs_next_frame (st : Scene) (o : Nat)
    (hnodup : st.objects.Nodup)
    (hoS : o ∉ st.objects) (hoL : o ∉ st.add_later)
    (hoScr : o ∉ st.env.scriptAdds st.timer)
    (hspawn : ∃ p ∈ st.objects, o ∈ st.env.spawns p (st.nlogic p + 1)) :
    (sceneLogic st).nlogic o = st.nlogic o ∧
    o ∉ (sceneLogic st).objects ∧
    o ∈ (sceneLogic st).add_later ∧
    (sceneLogic (sceneLogic st)).nlogic o = st.nlogic o + 1 := by
  obtain ⟨p, hp, hps⟩ := hspawn
  have hA := addAll_fields (st.env.scriptAdds st.timer) st
  have hAo : o ∉ (sceneScriptsPhase st).objects := by
    intro hx
    rcases (hA.2.2.2.2.2.1 o).mp hx with hx | ⟨-, hx⟩
    · exact hoS hx
    · exact hoScr hx
  have hAl : o ∉ (sceneScriptsPhase st).add_later := by
    intro hx
    rcases (hA.2.2.2.2.2.2.1 o).mp hx with hx | ⟨-, hx⟩
    · exact hoL hx
    · exact hoScr hx
  have hAp : p ∈ (sceneScriptsPhase st).objects :=
    (hA.2.2.2.2.2.1 p).mpr (Or.inl hp)
  have hAnd : (sceneScriptsPhase st).objects.Nodup :=
    hA.2.2.2.2.2.2.2 hnodup
  have hAn : (sceneScriptsPhase st).nlogic = st.nlogic := hA.2.2.1
  have hAe : (sceneScriptsPhase st).env = st.env := hA.1
  have hD := sceneDrain_fields
    { sceneScriptsPhase st with timer := (sceneScriptsPhase st).timer + 1 }
  set D := sceneDrain { sceneScriptsPhase st with
    timer := (sceneScriptsPhase st).timer + 1 } with hDdef
  have hDo : o ∉ D.objects := by
    intro hx
    rcases (hD.2.2.2.2.2.2.1 o).mp hx with hx | hx
    · exact hAo hx
    · exact hAl hx
  have hDp : p ∈ D.objects := (hD.2.2.2.2.2.2.1 p).mpr (Or.inl hAp)
  have hDnd : D.objects.Nodup := hD.2.2.2.2.2.2.2 hAnd
  have hDn : D.nlogic = st.nlogic := hD.2.2.1.trans hAn
  have hDe : D.env = st.env := hD.1.trans hAe
  have hDl : D.add_object_lock = true := hD.2.2.2.2.1
  have hop := foldl_objLogic_fields D.objects D hDl
  have hOn : (sceneObjectsPhase D).nlogic o = st.nlogic o := by
    show (D.objects.foldl objLogicStep D).nlogic o = st.nlogic o
    rw [hop.2.2.2.2.1 o, List.count_eq_zero.mpr hDo, Nat.add_zero, hDn]
  have hOo : o ∉ (sceneObjectsPhase D).objects := by
    show o ∉ (D.objects.foldl objLogicStep D).objects
    rw [hop.2.2.2.1]
    exact hDo
  have hOl : o ∈ (sceneObjectsPhase D).add_later := by
    show o ∈ (D.objects.foldl objLogicStep D).add_later
    refine foldl_objLogic_spawn D.objects D p o hDl hDnd hDp ?_
    rw [hDe, hDn]
    exact hps
  have hc1 : (sceneLogic st).nlogic o = st.nlogic o := hOn
  have hc2 : o ∉ (sceneLogic st).objects := by
    intro hx
    exact hOo
      ((sceneCleanup_fields (sceneObjectsPhase D)).2.2.2.2.2.1 o hx)
  have hc3 : o ∈ (sceneLogic st).add_later := hOl
  refine ⟨hc1, hc2, hc3, ?_⟩
  have hlock2 : (sceneLogic st).add_object_lock = true := sceneLogic_lock st
  have hnd2 : (sceneLogic st).objects.Nodup := sceneLogic_nodup st hnodup
  set S := sceneLogic st with hSdef
  have hA2 := addAll_fields (S.env.scriptAdds S.timer) S
  have hA2o : o ∉ (sceneScriptsPhase S).objects := by
    intro hx
    rcases (hA2.2.2.2.2.2.1 o).mp hx with hx | ⟨hl, -⟩
    · exact hc2 hx
    · rw [hlock2] at hl
      exact Bool.noConfusion hl
  have hA2l : o ∈ (sceneScriptsPhase S).add_later :=
    (hA2.2.2.2.2.2.2.1 o).mpr (Or.inl hc3)
  have hA2nd : (sceneScriptsPhase S).objects.Nodup :=
    hA2.2.2.2.2.2.2.2 hnd2
  have hA2n : (sceneScriptsPhase S).nlogic = S.nlogic := hA2.2.2.1
  have hD2 := sceneDrain_fields
    { sceneScriptsPhase S with timer := (sceneScriptsPhase S).timer + 1 }
  set D2 := sceneDrain { sceneScriptsPhase S with
    timer := (sceneScriptsPhase S).timer + 1 } with hD2def
  have hD2o : o ∈ D2.objects := (hD2.2.2.2.2.2.2.1 o).mpr (Or.inr hA2l)
  have hD2nd : D2.objects.Nodup := hD2.2.2.2.2.2.2.2 hA2nd
  have hD2n : D2.nlogic = S.nlogic := hD2.2.2.1.trans hA2n
  have hop2 := foldl_objLogic_fields D2.objects D2 hD2.2.2.2.2.1
  have hO2n : (sceneObjectsPhase D2).nlogic o = S.nlogic o + 1 := by
    show (D2.objects.foldl objLogicStep D2).nlogic o = S.nlogic o + 1
    rw [hop2.2.2.2.2.1 o, List.count_eq_one_of_mem hD2nd hD2o, hD2n]
  have hfin : (sceneLogic S).nlogic o = S.nlogic o + 1 := hO2n
  rw [hfin, hc1]

/-- Witness for the amended C5: object `3` spawns object `5` during its
first `logic()` run. -/
theorem queued_add_runs_next_frame_witness :
    (c5AmScene.objects.Nodup ∧ 5 ∉ c5AmScene.objects ∧
     5 ∉ c5AmScene.add_later ∧
     5 ∉ c5AmScene.env.scriptAdds c5AmScene.timer ∧
     (∃ p ∈ c5AmScene.objects,
       5 ∈ c5AmScene.env.spawns p (c5AmScene.nlogic p + 1))) ∧
    ((sceneLogic c5AmScene).nlogic 5 = c5AmScene.nlogic 5 ∧
     5 ∉ (sceneLogic c5AmScene).objects ∧
     5 ∈ (sceneLogic c5AmScene).add_later ∧
     (sceneLogic (sceneLogic c5AmScene)).nlogic 5
       = c5AmScene.nlogic 5 + 1) :=
  ⟨⟨by decide, by decide, by decide, by decide,
    ⟨3, by decide, by decide⟩⟩,
   queued_add_runs_next_frame c5AmScene 5 (by decide) (by decide)
     (by decide) (by decide) ⟨3, by decide, by decide⟩⟩

/-- C5 counterexample: object `5` is added through the *locked* `add()`
path — by the scene's own script, which `super().logic()` steps before the
drain — during the second frame, and nevertheless runs its `logic()` in
that very frame: the second `sceneLogic` call both queues it (the frame
starts with the lock held and the script calls `add`) and runs it once. -/
theorem queued_add_same_frame_counterexample :
    (sceneLogic c5Scene).add_object_lock = true ∧
    5 ∉ (sceneLogic c5Scene).objects ∧
    5 ∉ (sceneLogic c5Scene).add_later ∧
    (sceneAdd 5 (sceneLogic c5Scene)).add_later = [5] ∧
    (sceneLogic c5Scene).env.scriptAdds (sceneLogic c5Scene).timer
      = [5] ∧
    (sceneLogic (sceneLogic c5Scene)).nlogic 5 = 1 :=
  ⟨by decide, by decide, by decide, by decide, by decide, by decide⟩

end Luckypot
